import Mathlib

/-!
Shallow embedding of the oxide-mvu runtime (src/effect.rs, src/emitter.rs,
src/logic.rs, src/runtime.rs).

Modelling decisions, each justified by the source:

* `Effect<Event>` in effect.rs is a boxed closure produced only by the four
  constructors `none`, `just`, `batch`, `from_async`; the spec (§9) notes the
  equivalent explicit representation is the tagged variant
  {None, Just(Event), Batch(list), FromAsync(deferred)}.  We embed it as an
  inductive with those four constructors.  The deferred computation wrapped by
  `from_async` is modelled by the sequence of events its future emits when it
  is driven to completion.
* A future (`Pin<Box<dyn Future<Output = ()> + Send>>`) is observable only
  through the events it emits through the `Emitter` it captured, so a deferred
  unit of work is modelled as the list of events it emits, in order, when run
  to completion.
* The synchronous test spawner (`test_spawner_fn`, runtime.rs) blocks on the
  future immediately (`futures::executor::block_on`), so spawning a deferred
  unit appends its emissions to the pending queue, one `emit` at a time.
* The runtime state is the `MvuRuntime` struct restricted to its dynamic
  fields (`model`, `event_queue`), plus an observation trace recording, in
  program order, every reducer invocation, every `Renderer::render` call,
  every write to the canonical model, and every event appended to the queue.
  The `logic` field is passed explicitly; the renderer is the trace itself
  (as with `TestRenderer`, which just records the rendered props in order).
* `MvuLogic` (logic.rs) is a record of the three pure functions.  `view`
  receives an `&Emitter` only so that props may embed emit callbacks; the
  emitter does not influence the returned props value, so the embedded `view`
  is `Model → Props`, and a props callback firing is modelled as an external
  `enqueue` on the state.
* The mutually recursive `step` / `process_queued_events` pair (runtime.rs,
  only compiled for tests) is embedded with an explicit fuel parameter;
  `process_queued_events` carries the body of `step` inline so that the
  recursion is structural on the fuel.
-/

namespace OxideMvu

/-- Events recorded by the instrumented runtime, in program order:
reducer invocation (with the model it received), a `Renderer::render` call,
a write to the canonical model, and an event appended to the pending queue. -/
inductive Act (E M P : Type) : Type where
  | updateAct : E → M → Act E M P
  | renderAct : P → Act E M P
  | setModelAct : M → Act E M P
  | emitAct : E → Act E M P
  deriving DecidableEq

/-- The effect algebra of effect.rs, as the tagged variant the spec (§9)
gives for the boxed-closure representation.  `fromAsync body` wraps an
externally driven asynchronous computation; `body` is the sequence of events
the wrapped future emits, in order, when driven to completion. -/
inductive Effect (E : Type) : Type where
  | none : Effect E
  | just : E → Effect E
  | batch : List (Effect E) → Effect E
  | fromAsync : List E → Effect E

mutual

/-- Events emitted, in order, when the future returned by `Effect::execute`
is driven to completion.  `batch` (effect.rs lines 122-131) executes each
constituent in the given list order, awaiting each before starting the next,
so its emissions are the concatenation of the constituents' emissions. -/
def Effect.run {E : Type} : Effect E → List E
  | .none => []
  | .just e => [e]
  | .batch effs => Effect.runList effs
  | .fromAsync body => body

/-- Emissions of a list of effects executed sequentially in list order. -/
def Effect.runList {E : Type} : List (Effect E) → List E
  | [] => []
  | eff :: rest => Effect.run eff ++ Effect.runList rest

end

/-- The `MvuLogic` trait (logic.rs): the three pure functions an
application supplies. -/
structure MvuLogic (E M P : Type) : Type where
  init : M → M × Effect E
  update : E → M → M × Effect E
  view : M → P

/-- Dynamic state of an `MvuRuntime` (runtime.rs): the canonical model and
the pending event queue (`Vec<Event>` behind `Arc<Mutex<..>>`; `push`
appends at the back, `remove(0)` pops the front), plus the observation
trace. -/
@[ext]
structure MvuRuntimeState (E M P : Type) : Type where
  model : M
  queue : List E
  trace : List (Act E M P)
  deriving DecidableEq

/-- A generic `Emitter` (emitter.rs): shared ownership of a single
underlying callback (`Arc<Mutex<Box<dyn FnMut(Event)>>>`), modelled by the
callback itself as a queue transformer. -/
structure Emitter (E Q : Type) : Type where
  callback : E → Q → Q

/-- `Emitter::clone` (emitter.rs lines 65-69): clones the `Arc`, sharing
the same underlying callback. -/
def Emitter.clone {E Q : Type} (em : Emitter E Q) : Emitter E Q :=
  Emitter.mk em.callback

/-- `Emitter::emit` (emitter.rs lines 83-86): locks the mutex and invokes
the single underlying callback exactly once with the supplied event.  The
return type carries no error component, matching the source's `()` return. -/
def Emitter.emit {E Q : Type} (em : Emitter E Q) (e : E) (q : Q) : Q :=
  em.callback e q

/-- The callback installed by `MvuRuntime::new` (runtime.rs lines 109-111):
push the event at the back of the pending queue. -/
def runtimeEmitter (E : Type) : Emitter E (List E) :=
  Emitter.mk (fun e q => q ++ [e])

/-- Appending one event to the pending queue of a runtime state through the
runtime's emitter callback, recorded in the trace. -/
def MvuRuntimeState.enqueue {E M P : Type} (e : E) (s : MvuRuntimeState E M P) :
    MvuRuntimeState E M P :=
  { s with queue := (runtimeEmitter E).emit e s.queue,
           trace := s.trace ++ [Act.emitAct e] }

/-- `Effect::execute` (effect.rs lines 48-50): consume the effect and return
the future to hand to the spawner.  Each constructor's closure only clones
the emitter and constructs the future; none of them invokes `emit` before
the future is polled (`just` emits inside `async move`, `batch` executes
constituents inside `async move`, `from_async` merely applies the wrapped
function to a cloned emitter, producing the not-yet-polled future).  The
emitter grants access to the runtime state, so the embedding passes the
state through and returns it together with the deferred emission sequence. -/
def Effect.execute {E M P : Type} :
    Effect E → MvuRuntimeState E M P → MvuRuntimeState E M P × List E
  | .none, s => (s, [])
  | .just e, s => (s, [e])
  | .batch effs, s => (s, Effect.runList effs)
  | .fromAsync body, s => (s, body)

/-- `test_spawner_fn` (runtime.rs lines 208-211): block on the future
immediately, so the deferred unit of work runs to completion on the calling
thread, emitting its events in order through the runtime's emitter. -/
def test_spawner_fn {E M P : Type} (deferred : List E)
    (s : MvuRuntimeState E M P) : MvuRuntimeState E M P :=
  deferred.foldl (fun acc e => acc.enqueue e) s

/-- `MvuRuntime::new` (runtime.rs lines 104-122): fresh empty queue, model
set to the constructor argument. -/
def MvuRuntime.new {E M P : Type} (init_model : M) : MvuRuntimeState E M P :=
  { model := init_model, queue := [], trace := [] }

/-- `MvuRuntime::run` (runtime.rs lines 129-151): call `init`, store the
returned model as the canonical model, render the props derived from the
returned model, then execute and spawn the initial effect. -/
def MvuRuntime.run {E M P : Type} (l : MvuLogic E M P)
    (s : MvuRuntimeState E M P) : MvuRuntimeState E M P :=
  let ie := l.init s.model
  -- self.model = init_model.clone()
  let s1 : MvuRuntimeState E M P :=
    { s with model := ie.1, trace := s.trace ++ [Act.setModelAct ie.1] }
  -- let initial_props = self.logic.view(&init_model, emitter)
  let props := l.view ie.1
  -- self.renderer.render(initial_props)
  let s2 : MvuRuntimeState E M P :=
    { s1 with trace := s1.trace ++ [Act.renderAct props] }
  -- let future = init_effect.execute(&emitter); self.spawner.spawn(..)
  let ex := Effect.execute ie.2 s2
  test_spawner_fn ex.2 ex.1

/-- `TestMvuRuntime::new` (runtime.rs lines 342-362): identical construction
to `MvuRuntime::new`. -/
def TestMvuRuntime.new {E M P : Type} (init_model : M) : MvuRuntimeState E M P :=
  { model := init_model, queue := [], trace := [] }

/-- `TestMvuRuntime::run` (runtime.rs lines 368-386): call `init`, render
the props derived from the returned model, then execute and spawn the
initial effect.  Unlike `MvuRuntime::run`, the source never writes the
init-returned model back into `self.runtime.model`. -/
def TestMvuRuntime.run {E M P : Type} (l : MvuLogic E M P)
    (s : MvuRuntimeState E M P) : MvuRuntimeState E M P :=
  let ie := l.init s.model
  -- let initial_props = self.runtime.logic.view(&init_model, &emitter)
  let props := l.view ie.1
  -- self.runtime.renderer.render(initial_props)
  let s2 : MvuRuntimeState E M P :=
    { s with trace := s.trace ++ [Act.renderAct props] }
  -- let future = init_effect.execute(&self.runtime.emitter); spawn
  let ex := Effect.execute ie.2 s2
  test_spawner_fn ex.2 ex.1

/-- Body of `MvuRuntime::step` before its trailing
`process_queued_events` call (runtime.rs lines 154-169): `reduce_event`
(update, then view), render the props, replace the canonical model with the
new model, execute the effect and spawn it on the synchronous spawner. -/
def MvuRuntime.stepCore {E M P : Type} (l : MvuLogic E M P) (ev : E)
    (s : MvuRuntimeState E M P) : MvuRuntimeState E M P :=
  -- let (model, effect, props) = self.reduce_event(event)
  let um := l.update ev s.model
  let props := l.view um.1
  -- self.renderer.render(props)
  let s1 : MvuRuntimeState E M P :=
    { s with trace := s.trace ++ [Act.updateAct ev s.model, Act.renderAct props] }
  -- self.model = model
  let s2 : MvuRuntimeState E M P :=
    { s1 with model := um.1, trace := s1.trace ++ [Act.setModelAct um.1] }
  -- let future = effect.execute(&emitter); self.spawner.spawn(..)
  let ex := Effect.execute um.2 s2
  test_spawner_fn ex.2 ex.1

/-- `MvuRuntime::process_queued_events` (runtime.rs lines 189-201), with
the body of `step` (which tail-calls `process_queued_events` again) placed
inline so the mutual recursion is structural on the fuel: loop; if the
queue is empty, stop; otherwise pop the front event, run the step body,
drain the events the step queued (the trailing call inside `step`), and
continue the loop.  `Option.none` means the fuel ran out. -/
def MvuRuntime.process_queued_events {E M P : Type} (l : MvuLogic E M P) :
    Nat → MvuRuntimeState E M P → Option (MvuRuntimeState E M P)
  | 0, _ => Option.none
  | fuel + 1, s =>
    match s.queue with
    | [] => Option.some s
    | ev :: rest =>
      match MvuRuntime.process_queued_events l fuel
          (MvuRuntime.stepCore l ev { s with queue := rest }) with
      | Option.none => Option.none
      | Option.some s2 => MvuRuntime.process_queued_events l fuel s2

/-- `MvuRuntime::step` (runtime.rs lines 154-170): the step body followed by
`process_queued_events`. -/
def MvuRuntime.step {E M P : Type} (l : MvuLogic E M P) (fuel : Nat) (ev : E)
    (s : MvuRuntimeState E M P) : Option (MvuRuntimeState E M P) :=
  MvuRuntime.process_queued_events l fuel (MvuRuntime.stepCore l ev s)

/-- `TestMvuDriver::process_events` (runtime.rs lines 262-264): delegates to
`process_queued_events` on the held runtime. -/
def TestMvuDriver.process_events {E M P : Type} (l : MvuLogic E M P)
    (fuel : Nat) (s : MvuRuntimeState E M P) :
    Option (MvuRuntimeState E M P) :=
  MvuRuntime.process_queued_events l fuel s

/-- Events passed to the reducer, extracted from one trace entry. -/
def Act.consumedEvent {E M P : Type} : Act E M P → Option E
  | .updateAct ev _ => Option.some ev
  | _ => Option.none

/-- Rendered props, extracted from one trace entry. -/
def Act.renderedProps {E M P : Type} : Act E M P → Option P
  | .renderAct p => Option.some p
  | _ => Option.none

/-- Event appended to the pending queue, extracted from one trace entry. -/
def Act.emittedEvent {E M P : Type} : Act E M P → Option E
  | .emitAct e => Option.some e
  | _ => Option.none

/-- The events a trace consumed (passed to the reducer), in order. -/
def consumedL {E M P : Type} (t : List (Act E M P)) : List E :=
  t.filterMap Act.consumedEvent

/-- The props a trace rendered, in order. -/
def renderedL {E M P : Type} (t : List (Act E M P)) : List P :=
  t.filterMap Act.renderedProps

/-- The events a trace appended to the pending queue, in order. -/
def emittedL {E M P : Type} (t : List (Act E M P)) : List E :=
  t.filterMap Act.emittedEvent

/-- The trace segment one step contributes before its trailing drain:
reducer invocation on the pre-step model, render of the view of the new
model, replacement of the canonical model by the new model, then the
emissions of the step's effect. -/
def stepBlock {E M P : Type} (l : MvuLogic E M P) (m : M) (ev : E) :
    List (Act E M P) :=
  Act.updateAct ev m ::
  Act.renderAct (l.view (l.update ev m).1) ::
  Act.setModelAct (l.update ev m).1 ::
  ((l.update ev m).2.run.map Act.emitAct)

/-- All trace segments contributed by a sequence of steps, one `stepBlock`
per processed event, in processing order. -/
def blocksJoin {E M P : Type} (l : MvuLogic E M P) (pairs : List (M × E)) :
    List (Act E M P) :=
  (pairs.map (fun q => stepBlock l q.1 q.2)).flatten

lemma Effect.execute_fst {E M P : Type} (eff : Effect E)
    (s : MvuRuntimeState E M P) : (Effect.execute eff s).1 = s := by
  cases eff <;> rfl

lemma Effect.execute_snd {E M P : Type} (eff : Effect E)
    (s : MvuRuntimeState E M P) : (Effect.execute eff s).2 = eff.run := by
  cases eff <;> rfl

lemma test_spawner_fn_spec {E M P : Type} (d : List E) :
    ∀ s : MvuRuntimeState E M P,
      test_spawner_fn d s =
        { model := s.model, queue := s.queue ++ d,
          trace := s.trace ++ d.map Act.emitAct } := by
  induction d with
  | nil => intro s; simp [test_spawner_fn]
  | cons e d ih =>
    intro s
    simp only [test_spawner_fn, List.foldl_cons] at *
    rw [ih]
    simp [MvuRuntimeState.enqueue, runtimeEmitter, Emitter.emit]

lemma consumedL_append {E M P : Type} (t1 t2 : List (Act E M P)) :
    consumedL (t1 ++ t2) = consumedL t1 ++ consumedL t2 := by
  simp [consumedL]

lemma renderedL_append {E M P : Type} (t1 t2 : List (Act E M P)) :
    renderedL (t1 ++ t2) = renderedL t1 ++ renderedL t2 := by
  simp [renderedL]

lemma emittedL_append {E M P : Type} (t1 t2 : List (Act E M P)) :
    emittedL (t1 ++ t2) = emittedL t1 ++ emittedL t2 := by
  simp [emittedL]

lemma consumedL_emits {E M P : Type} (evs : List E) :
    consumedL ((evs.map Act.emitAct : List (Act E M P))) = [] := by
  induction evs with
  | nil => rfl
  | cons e evs ih => simp [consumedL, Act.consumedEvent]

lemma renderedL_emits {E M P : Type} (evs : List E) :
    renderedL ((evs.map Act.emitAct : List (Act E M P))) = [] := by
  induction evs with
  | nil => rfl
  | cons e evs ih => simp [renderedL, Act.renderedProps]

lemma emittedL_emits {E M P : Type} (evs : List E) :
    emittedL ((evs.map Act.emitAct : List (Act E M P))) = evs := by
  induction evs with
  | nil => rfl
  | cons e evs ih => simpa [emittedL, Act.emittedEvent] using ih

lemma consumedL_stepBlock {E M P : Type} (l : MvuLogic E M P) (m : M) (ev : E) :
    consumedL (stepBlock l m ev) = [ev] := by
  simp [stepBlock, consumedL, Act.consumedEvent, List.filterMap_cons]

lemma renderedL_stepBlock {E M P : Type} (l : MvuLogic E M P) (m : M) (ev : E) :
    renderedL (stepBlock l m ev) = [l.view (l.update ev m).1] := by
  simp [stepBlock, renderedL, Act.renderedProps, List.filterMap_cons]

lemma emittedL_stepBlock {E M P : Type} (l : MvuLogic E M P) (m : M) (ev : E) :
    emittedL (stepBlock l m ev) = (l.update ev m).2.run := by
  simp only [stepBlock, emittedL, Act.emittedEvent, List.filterMap_cons]
  simpa [emittedL, List.filterMap_map] using
    emittedL_emits (E := E) (M := M) (P := P) ((l.update ev m).2.run)

lemma stepCore_eq {E M P : Type} (l : MvuLogic E M P) (ev : E)
    (s : MvuRuntimeState E M P) :
    MvuRuntime.stepCore l ev s =
      { model := (l.update ev s.model).1,
        queue := s.queue ++ (l.update ev s.model).2.run,
        trace := s.trace ++ stepBlock l s.model ev } := by
  simp only [MvuRuntime.stepCore, Effect.execute_fst, Effect.execute_snd,
    test_spawner_fn_spec, stepBlock]
  ext <;> simp

lemma pqe_sound {E M P : Type} (l : MvuLogic E M P) :
    ∀ (fuel : Nat) (s s' : MvuRuntimeState E M P),
      MvuRuntime.process_queued_events l fuel s = Option.some s' →
      s'.queue = [] ∧ ∃ tail, s'.trace = s.trace ++ tail ∧
        consumedL tail = s.queue ++ emittedL tail := by
  intro fuel
  induction fuel with
  | zero =>
    intro s s' h
    simp [MvuRuntime.process_queued_events] at h
  | succ fuel ih =>
    intro s s' h
    rw [MvuRuntime.process_queued_events] at h
    split at h
    · rename_i hq
      simp only [Option.some.injEq] at h
      subst h
      exact ⟨hq, [], by simp, by simp [hq, consumedL, emittedL]⟩
    · rename_i ev rest hq
      split at h
      · cases h
      · rename_i s2 hst
        rw [stepCore_eq] at hst
        obtain ⟨hq2, t1, ht1, hc1⟩ := ih _ _ hst
        obtain ⟨hq', t2, ht2, hc2⟩ := ih _ _ h
        simp only at ht1 hc1
        refine ⟨hq', stepBlock l s.model ev ++ (t1 ++ t2), ?_, ?_⟩
        · rw [ht2, ht1]; simp [List.append_assoc]
        · rw [consumedL_append, consumedL_append, emittedL_append,
            emittedL_append, consumedL_stepBlock, emittedL_stepBlock,
            hc1, hc2, hq2, hq]
          simp [List.append_assoc]

lemma pqe_blocks {E M P : Type} (l : MvuLogic E M P) :
    ∀ (fuel : Nat) (s s' : MvuRuntimeState E M P),
      MvuRuntime.process_queued_events l fuel s = Option.some s' →
      ∃ pairs : List (M × E), s'.trace = s.trace ++ blocksJoin l pairs := by
  intro fuel
  induction fuel with
  | zero =>
    intro s s' h
    simp [MvuRuntime.process_queued_events] at h
  | succ fuel ih =>
    intro s s' h
    rw [MvuRuntime.process_queued_events] at h
    split at h
    · rename_i hq
      simp only [Option.some.injEq] at h
      subst h
      exact ⟨[], by simp [blocksJoin]⟩
    · rename_i ev rest hq
      split at h
      · cases h
      · rename_i s2 hst
        rw [stepCore_eq] at hst
        obtain ⟨p1, hp1⟩ := ih _ _ hst
        obtain ⟨p2, hp2⟩ := ih _ _ h
        simp only at hp1
        refine ⟨(s.model, ev) :: (p1 ++ p2), ?_⟩
        rw [hp2, hp1]
        simp [blocksJoin, List.append_assoc]

lemma split_after_emits {E M P : Type} (evs : List E) :
    ∀ (rest pre post : List (Act E M P)) (x : Act E M P),
      (∀ e : E, x ≠ Act.emitAct e) →
      (evs.map Act.emitAct) ++ rest = pre ++ x :: post →
      ∃ pre2, pre = (evs.map Act.emitAct) ++ pre2 ∧
        rest = pre2 ++ x :: post := by
  induction evs with
  | nil =>
    intro rest pre post x hx h
    exact ⟨pre, by simp, by simpa using h⟩
  | cons e evs ih =>
    intro rest pre post x hx h
    simp only [List.map_cons, List.cons_append] at h
    cases pre with
    | nil =>
      simp only [List.append_eq, List.nil_append] at h
      injection h with h1 h2
      exact absurd h1.symm (hx e)
    | cons p pre1 =>
      simp only [List.cons_append] at h
      injection h with h1 h2
      obtain ⟨pre2, hp, hr⟩ := ih rest pre1 post x hx h2
      refine ⟨pre2, ?_, hr⟩
      rw [hp, ← h1]
      simp

lemma blocksJoin_cons {E M P : Type} (l : MvuLogic E M P) (q : M × E)
    (pairs : List (M × E)) :
    blocksJoin l (q :: pairs) = stepBlock l q.1 q.2 ++ blocksJoin l pairs := by
  simp [blocksJoin]

lemma blocksJoin_update_counts {E M P : Type} (l : MvuLogic E M P) :
    ∀ (pairs : List (M × E)) (pre post : List (Act E M P)) (ev : E) (m : M),
      blocksJoin l pairs = pre ++ Act.updateAct ev m :: post →
      (renderedL pre).length = (consumedL pre).length := by
  intro pairs
  induction pairs with
  | nil =>
    intro pre post ev m h
    simp [blocksJoin] at h
  | cons q pairs ih =>
    intro pre post ev m h
    rw [blocksJoin_cons, stepBlock] at h
    simp only [List.cons_append] at h
    cases pre with
    | nil => simp [renderedL, consumedL]
    | cons a pre1 =>
      injection h with h1 h2
      cases pre1 with
      | nil =>
        simp only [List.append_eq, List.nil_append] at h2
        injection h2 with h3 h4
        cases h3
      | cons b pre2 =>
        simp only [List.append_eq, List.cons_append] at h2
        injection h2 with h3 h4
        cases pre2 with
        | nil =>
          simp only [List.append_eq, List.nil_append] at h4
          injection h4 with h5 h6
          cases h5
        | cons c pre3 =>
          simp only [List.append_eq, List.cons_append] at h4
          injection h4 with h5 h6
          obtain ⟨pre4, hp4, hr4⟩ :=
            split_after_emits _ _ _ _ _ (by intro e he; cases he) h6
          have hcount := ih pre4 post ev m hr4
          subst hp4
          rw [← h1, ← h3, ← h5]
          simp only [renderedL_append, consumedL_append, renderedL, consumedL,
            List.filterMap_cons, Act.renderedProps, Act.consumedEvent,
            renderedL_emits, consumedL_emits]
          simp only [renderedL, consumedL] at hcount
          simp [renderedL_emits, consumedL_emits, renderedL, consumedL,
            hcount]
          rw [← List.filterMap_map, ← List.filterMap_map]
          have hr := renderedL_emits (E := E) (M := M) (P := P)
            ((l.update q.2 q.1).2.run)
          have hc := consumedL_emits (E := E) (M := M) (P := P)
            ((l.update q.2 q.1).2.run)
          simp only [renderedL, consumedL] at hr hc
          rw [hr, hc]
          rfl

lemma blocksJoin_set_preceded {E M P : Type} (l : MvuLogic E M P) :
    ∀ (pairs : List (M × E)) (pre post : List (Act E M P)) (m : M),
      blocksJoin l pairs = pre ++ Act.setModelAct m :: post →
      ∃ pre2, pre = pre2 ++ [Act.renderAct (l.view m)] := by
  intro pairs
  induction pairs with
  | nil =>
    intro pre post m h
    simp [blocksJoin] at h
  | cons q pairs ih =>
    intro pre post m h
    rw [blocksJoin_cons, stepBlock] at h
    simp only [List.cons_append] at h
    cases pre with
    | nil =>
      simp only [List.append_eq, List.nil_append] at h
      injection h with h1 h2
      cases h1
    | cons a pre1 =>
      injection h with h1 h2
      cases pre1 with
      | nil =>
        simp only [List.append_eq, List.nil_append] at h2
        injection h2 with h3 h4
        cases h3
      | cons b pre2 =>
        simp only [List.append_eq, List.cons_append] at h2
        injection h2 with h3 h4
        cases pre2 with
        | nil =>
          simp only [List.append_eq, List.nil_append] at h4
          injection h4 with h5 h6
          refine ⟨[a], ?_⟩
          injection h5 with hm
          rw [← h3, hm]
          rfl
        | cons c pre3 =>
          simp only [List.append_eq, List.cons_append] at h4
          injection h4 with h5 h6
          obtain ⟨pre4, hp4, hr4⟩ :=
            split_after_emits _ _ _ _ _ (by intro e he; cases he) h6
          obtain ⟨pre5, hp5⟩ := ih pre4 post m hr4
          subst hp4 hp5
          refine ⟨a :: b :: c ::
            (((l.update q.2 q.1).2.run.map Act.emitAct) ++ pre5), ?_⟩
          simp

lemma runList_eq_flatten {E : Type} (effs : List (Effect E)) :
    Effect.runList effs = (effs.map Effect.run).flatten := by
  induction effs with
  | nil => rfl
  | cons eff rest ih => simp [Effect.runList, ih]

lemma consumedL_blocksJoin {E M P : Type} (l : MvuLogic E M P)
    (pairs : List (M × E)) :
    consumedL (blocksJoin l pairs) = pairs.map Prod.snd := by
  induction pairs with
  | nil => simp [blocksJoin, consumedL]
  | cons q pairs ih =>
    rw [blocksJoin_cons, consumedL_append, consumedL_stepBlock, ih]
    rfl

lemma renderedL_blocksJoin {E M P : Type} (l : MvuLogic E M P)
    (pairs : List (M × E)) :
    renderedL (blocksJoin l pairs) =
      pairs.map (fun q => l.view (l.update q.2 q.1).1) := by
  induction pairs with
  | nil => simp [blocksJoin, renderedL]
  | cons q pairs ih =>
    rw [blocksJoin_cons, renderedL_append, renderedL_stepBlock, ih]
    rfl

/-- A small concrete application used to instantiate the theorems below:
`init` returns a model different from the one passed in (the constructor
model plus one) with no initial effect, `update` adds the event to the
model with no side effect, and `view` is the identity projection. -/
def cLogic : MvuLogic Nat Nat Nat :=
  { init := fun m => (m + 1, Effect.none),
    update := fun ev m => (m + ev, Effect.none),
    view := fun m => m }

lemma MvuRuntime_run_eq {E M P : Type} (l : MvuLogic E M P)
    (s : MvuRuntimeState E M P) :
    MvuRuntime.run l s =
      { model := (l.init s.model).1,
        queue := s.queue ++ Effect.run (l.init s.model).2,
        trace := s.trace ++
          [Act.setModelAct (l.init s.model).1,
           Act.renderAct (l.view (l.init s.model).1)] ++
          (Effect.run (l.init s.model).2).map Act.emitAct } := by
  simp only [MvuRuntime.run, Effect.execute_fst, Effect.execute_snd,
    test_spawner_fn_spec]
  ext <;> simp

lemma TestMvuRuntime_run_eq {E M P : Type} (l : MvuLogic E M P)
    (s : MvuRuntimeState E M P) :
    TestMvuRuntime.run l s =
      { model := s.model,
        queue := s.queue ++ Effect.run (l.init s.model).2,
        trace := s.trace ++ [Act.renderAct (l.view (l.init s.model).1)] ++
          (Effect.run (l.init s.model).2).map Act.emitAct } := by
  simp only [TestMvuRuntime.run, Effect.execute_fst, Effect.execute_snd,
    test_spawner_fn_spec]

/-- Claim C1.  The claim states that after initialization via run, the
canonical Model equals the model returned by init, for both MvuRuntime::run
and TestMvuRuntime::run, and that every subsequent update receives this
init-returned model.  The code satisfies this for the production runtime
but violates it for the test runtime: with a logic whose init maps model 0
to model 1, MvuRuntime::run stores 1 while TestMvuRuntime::run leaves the
canonical model at the constructor argument 0, and the first reducer
invocation after draining records the received model 0 (trace entry
updateAct 7 0), not the init-returned 1 (contrast the production trace
entry updateAct 7 1). -/
theorem c1_test_run_drops_init_model :
    (cLogic.init 0).1 = 1 ∧
    (MvuRuntime.run cLogic (MvuRuntime.new 0)).model = 1 ∧
    (TestMvuRuntime.run cLogic (TestMvuRuntime.new 0)).model = 0 ∧
    MvuRuntime.process_queued_events cLogic 2
        ((MvuRuntime.run cLogic (MvuRuntime.new 0)).enqueue 7) =
      Option.some ⟨8, [],
        [Act.setModelAct 1, Act.renderAct 1, Act.emitAct 7,
         Act.updateAct 7 1, Act.renderAct 8, Act.setModelAct 8]⟩ ∧
    MvuRuntime.process_queued_events cLogic 2
        ((TestMvuRuntime.run cLogic (TestMvuRuntime.new 0)).enqueue 7) =
      Option.some ⟨7, [],
        [Act.renderAct 1, Act.emitAct 7, Act.updateAct 7 0,
         Act.renderAct 7, Act.setModelAct 7]⟩ :=
  ⟨rfl, rfl, rfl, rfl, rfl⟩

/-- Claim C5.  Initialization via run renders exactly one Props before any
queued event is processed (the trace contains exactly one render and no
reducer invocation), and that Props is derived by view from the model
returned by init applied to the constructor model, for both the production
runtime and the test runtime. -/
theorem c5_init_renders_once_from_init_model {E M P : Type}
    (l : MvuLogic E M P) (m0 : M) :
    renderedL (MvuRuntime.run l (MvuRuntime.new m0)).trace =
      [l.view (l.init m0).1] ∧
    consumedL (MvuRuntime.run l (MvuRuntime.new m0)).trace = [] ∧
    renderedL (TestMvuRuntime.run l (TestMvuRuntime.new m0)).trace =
      [l.view (l.init m0).1] ∧
    consumedL (TestMvuRuntime.run l (TestMvuRuntime.new m0)).trace = [] := by
  rw [MvuRuntime_run_eq, TestMvuRuntime_run_eq]
  refine ⟨?_, ?_, ?_, ?_⟩ <;>
    simp [MvuRuntime.new, TestMvuRuntime.new, renderedL_append,
      consumedL_append, renderedL_emits, consumedL_emits, renderedL,
      consumedL, Act.renderedProps, Act.consumedEvent, List.filterMap_cons]

/-- Claim C6.  For every effect built from the four constructors, execute
leaves the runtime state (in particular the pending event queue and the
emission trace) unchanged and emits nothing itself; all event emission
happens only when the returned deferred unit of work is run (here: when
the synchronous spawner drives it to completion, which appends exactly the
deferred emission sequence to the pending queue). -/
theorem c6_execute_defers_all_emission {E M P : Type} (eff : Effect E)
    (s t : MvuRuntimeState E M P) :
    (Effect.execute eff s).1 = s ∧
    (Effect.execute eff s).2 = Effect.run eff ∧
    (test_spawner_fn (Effect.execute eff s).2 t).queue =
      t.queue ++ Effect.run eff ∧
    emittedL (test_spawner_fn (Effect.execute eff s).2 t).trace =
      emittedL t.trace ++ Effect.run eff := by
  refine ⟨Effect.execute_fst eff s, Effect.execute_snd eff s, ?_, ?_⟩
  · rw [Effect.execute_snd, test_spawner_fn_spec]
  · rw [Effect.execute_snd, test_spawner_fn_spec]
    simp [emittedL_append, emittedL_emits]

/-- Claim C7, counterexample.  The claim says emission after consumer
teardown is a silent no-op that drops the event.  In the code the emitter
is a lock-guarded callback holding shared (Arc) ownership of the queue, not
a channel: there is no disconnected state, and emit always appends the
event to the queue — it is never a no-op on the queue, and the event is
retained there rather than dropped. -/
theorem c7_counterexample :
    Emitter.emit (runtimeEmitter Nat) 0 [] = [0] ∧ ([0] : List Nat) ≠ [] :=
  ⟨rfl, by decide⟩

/-- Claim C7, amended.  Emitter::emit has no synchronous error path (it is
a total function whose result carries no error component): whether or not
any consumer still exists, it silently invokes the queue-push callback,
appending the event to the pending queue, and by itself never delivers the
event to the reducer — after the consuming runtime is gone the event is
silently lost to the application, though it is appended to, not dropped
from, the orphaned queue. -/
theorem c7_emit_silent_total {E M P : Type} (e : E) (q : List E)
    (s : MvuRuntimeState E M P) :
    Emitter.emit (runtimeEmitter E) e q = q ++ [e] ∧
    (s.enqueue e).queue = s.queue ++ [e] ∧
    consumedL (s.enqueue e).trace = consumedL s.trace ∧
    renderedL (s.enqueue e).trace = renderedL s.trace := by
  refine ⟨rfl, rfl, ?_, ?_⟩ <;>
    simp [MvuRuntimeState.enqueue, consumedL_append, renderedL_append,
      consumedL, renderedL, Act.consumedEvent, Act.renderedProps]

/-- Claim C10.  Emitter::emit applies the single underlying callback
exactly once to the supplied event (its result is one callback
application, nothing more); Emitter::clone yields a handle sharing the
same underlying callback, so emitting through a clone is the same
operation as emitting through the original, and for the runtime's emitter
both append the event to the same pending queue.  (The mutex around the
callback serializes concurrent calls in the source; in this sequential
model that serialization is the atomicity of the single application.) -/
theorem c10_emit_once_clone_shares {E Q : Type} (cb : E → Q → Q)
    (em : Emitter E Q) (e : E) (q : Q) :
    Emitter.emit (Emitter.mk cb) e q = cb e q ∧
    Emitter.clone em = em ∧
    Emitter.emit (Emitter.clone em) e q = Emitter.emit em e q ∧
    ∀ (e2 : E) (q2 : List E),
      Emitter.emit (Emitter.clone (runtimeEmitter E)) e2 q2 =
        Emitter.emit (runtimeEmitter E) e2 q2 ∧
      Emitter.emit (Emitter.clone (runtimeEmitter E)) e2 q2 = q2 ++ [e2] :=
  ⟨rfl, rfl, rfl, fun _ _ => ⟨rfl, rfl⟩⟩

/-- Claim C4.  Draining consumes every pending event exactly once and in
FIFO order: whenever process_queued_events completes, the queue is empty
and the sequence of events passed to the reducer (in invocation order)
equals the queue content at the start followed by exactly the events
emitted during the drain, in their queue-arrival order — each arrived
event is consumed once, none is lost or duplicated, and for any two events
enqueued in some order the reducer processes them in that order. -/
theorem c4_fifo_exactly_once {E M P : Type} (l : MvuLogic E M P) (fuel : Nat)
    (s s' : MvuRuntimeState E M P)
    (h : MvuRuntime.process_queued_events l fuel s = Option.some s') :
    s'.queue = [] ∧ ∃ tail, s'.trace = s.trace ++ tail ∧
      consumedL tail = s.queue ++ emittedL tail :=
  pqe_sound l fuel s s' h

theorem c4_fifo_exactly_once_witness :
    MvuRuntime.process_queued_events cLogic 2 ((MvuRuntime.new 0 : MvuRuntimeState Nat Nat Nat).enqueue 7) =
      Option.some (⟨7, [], [Act.emitAct 7, Act.updateAct 7 0, Act.renderAct 7,
        Act.setModelAct 7]⟩ : MvuRuntimeState Nat Nat Nat) ∧
    ((⟨7, [], [Act.emitAct 7, Act.updateAct 7 0, Act.renderAct 7,
        Act.setModelAct 7]⟩ : MvuRuntimeState Nat Nat Nat).queue = [] ∧
      ∃ tail, (⟨7, [], [Act.emitAct 7, Act.updateAct 7 0, Act.renderAct 7,
          Act.setModelAct 7]⟩ : MvuRuntimeState Nat Nat Nat).trace =
        ((MvuRuntime.new 0 : MvuRuntimeState Nat Nat Nat).enqueue 7).trace ++ tail ∧
        consumedL tail =
          ((MvuRuntime.new 0 : MvuRuntimeState Nat Nat Nat).enqueue 7).queue ++ emittedL tail) :=
  ⟨rfl, c4_fifo_exactly_once cLogic 2 ((MvuRuntime.new 0 : MvuRuntimeState Nat Nat Nat).enqueue 7)
    ⟨7, [], [Act.emitAct 7, Act.updateAct 7 0, Act.renderAct 7,
      Act.setModelAct 7]⟩ rfl⟩

/-- Claim C3.  In every completed drain the trace extension satisfies: at
the moment the reducer is invoked for the (n+1)th processed event, exactly
n renders have occurred (first conjunct: at every reducer-invocation point
the number of preceding renders equals the number of preceding reducer
invocations), so the render for event n happens strictly before the model
update for event n+1; and every replacement of the canonical model by a
new model is immediately preceded by the render of the props computed by
view from that very model (second conjunct), so no model state is stored
without its props having been rendered first. -/
theorem c3_render_before_next_update {E M P : Type} (l : MvuLogic E M P)
    (fuel : Nat) (s s' : MvuRuntimeState E M P)
    (h : MvuRuntime.process_queued_events l fuel s = Option.some s') :
    ∃ tail, s'.trace = s.trace ++ tail ∧
      (∀ pre ev m post, tail = pre ++ Act.updateAct ev m :: post →
        (renderedL pre).length = (consumedL pre).length) ∧
      (∀ pre m post, tail = pre ++ Act.setModelAct m :: post →
        ∃ pre2, pre = pre2 ++ [Act.renderAct (l.view m)]) := by
  obtain ⟨pairs, hp⟩ := pqe_blocks l fuel s s' h
  exact ⟨blocksJoin l pairs, hp,
    fun pre ev m post hdec =>
      blocksJoin_update_counts l pairs pre post ev m hdec,
    fun pre m post hdec =>
      blocksJoin_set_preceded l pairs pre post m hdec⟩

theorem c3_render_before_next_update_witness :
    MvuRuntime.process_queued_events cLogic 2 ((MvuRuntime.new 0 : MvuRuntimeState Nat Nat Nat).enqueue 9) =
      Option.some (⟨9, [], [Act.emitAct 9, Act.updateAct 9 0, Act.renderAct 9,
        Act.setModelAct 9]⟩ : MvuRuntimeState Nat Nat Nat) ∧
    (∃ tail, (⟨9, [], [Act.emitAct 9, Act.updateAct 9 0, Act.renderAct 9,
        Act.setModelAct 9]⟩ : MvuRuntimeState Nat Nat Nat).trace =
      ((MvuRuntime.new 0 : MvuRuntimeState Nat Nat Nat).enqueue 9).trace ++ tail ∧
      (∀ pre ev m post, tail = pre ++ Act.updateAct ev m :: post →
        (renderedL pre).length = (consumedL pre).length) ∧
      (∀ pre m post, tail = pre ++ Act.setModelAct m :: post →
        ∃ pre2, pre = pre2 ++ [Act.renderAct (cLogic.view m)])) :=
  ⟨rfl, c3_render_before_next_update cLogic 2 ((MvuRuntime.new 0 : MvuRuntimeState Nat Nat Nat).enqueue 9)
    ⟨9, [], [Act.emitAct 9, Act.updateAct 9 0, Act.renderAct 9,
      Act.setModelAct 9]⟩ rfl⟩

/-- Claim C2.  The deferred unit produced by batch executes its
constituents in the given list order, one completing before the next
starts, so its emissions are the concatenation of the constituents'
emissions in list order (first conjunct); spawning it on the synchronous
spawner places exactly those events in the pending queue in that order
(second conjunct); and a completed drain then processes events in block
structure: the processed events (third conjunct, pairs.map Prod.snd) are
the batch's events in listed order followed only by later emissions, and
the render stream contains exactly one render per processed event in the
same order, so the events of the batch appear in the render stream in the
same relative order as the effects were listed. -/
theorem c2_batch_order {E M P : Type} (l : MvuLogic E M P)
    (effs : List (Effect E)) (fuel : Nat) (s s' : MvuRuntimeState E M P)
    (hq : s.queue = [])
    (h : MvuRuntime.process_queued_events l fuel
        (test_spawner_fn (Effect.run (Effect.batch effs)) s) =
      Option.some s') :
    Effect.run (Effect.batch effs) = (effs.map Effect.run).flatten ∧
    (test_spawner_fn (Effect.run (Effect.batch effs)) s).queue =
      (effs.map Effect.run).flatten ∧
    ∃ pairs : List (M × E),
      s'.trace = (test_spawner_fn (Effect.run (Effect.batch effs)) s).trace ++
        blocksJoin l pairs ∧
      pairs.map Prod.snd =
        (effs.map Effect.run).flatten ++ emittedL (blocksJoin l pairs) ∧
      renderedL (blocksJoin l pairs) =
        pairs.map (fun q => l.view (l.update q.2 q.1).1) := by
  have hrun : Effect.run (Effect.batch effs) = (effs.map Effect.run).flatten := by
    rw [← runList_eq_flatten]
    simp [Effect.run]
  have hqueue : (test_spawner_fn (Effect.run (Effect.batch effs)) s).queue =
      (effs.map Effect.run).flatten := by
    rw [test_spawner_fn_spec]
    simp [hq, hrun]
  obtain ⟨pairs, hp⟩ := pqe_blocks l fuel _ s' h
  obtain ⟨hq', tail, ht, hc⟩ := pqe_sound l fuel _ s' h
  have htail : tail = blocksJoin l pairs :=
    List.append_cancel_left (ht.symm.trans hp)
  refine ⟨hrun, hqueue, pairs, hp, ?_, renderedL_blocksJoin l pairs⟩
  rw [← consumedL_blocksJoin l pairs, ← htail, hc, hqueue]

theorem c2_batch_order_witness :
    (MvuRuntime.new 0 : MvuRuntimeState Nat Nat Nat).queue = [] ∧
    MvuRuntime.process_queued_events cLogic 3
        (test_spawner_fn
          (Effect.run (Effect.batch [Effect.just 1, Effect.just 2]))
          (MvuRuntime.new 0)) =
      Option.some (⟨3, [],
        [Act.emitAct 1, Act.emitAct 2, Act.updateAct 1 0, Act.renderAct 1,
         Act.setModelAct 1, Act.updateAct 2 1, Act.renderAct 3,
         Act.setModelAct 3]⟩ : MvuRuntimeState Nat Nat Nat) ∧
    (Effect.run (Effect.batch [Effect.just 1, Effect.just 2]) =
        (([Effect.just 1, Effect.just 2]).map Effect.run).flatten ∧
      (test_spawner_fn
          (Effect.run (Effect.batch [Effect.just 1, Effect.just 2]))
          (MvuRuntime.new 0 : MvuRuntimeState Nat Nat Nat)).queue =
        (([Effect.just 1, Effect.just 2]).map Effect.run).flatten ∧
      ∃ pairs : List (Nat × Nat),
        (⟨3, [],
          [Act.emitAct 1, Act.emitAct 2, Act.updateAct 1 0, Act.renderAct 1,
           Act.setModelAct 1, Act.updateAct 2 1, Act.renderAct 3,
           Act.setModelAct 3]⟩ : MvuRuntimeState Nat Nat Nat).trace =
          (test_spawner_fn
            (Effect.run (Effect.batch [Effect.just 1, Effect.just 2]))
            (MvuRuntime.new 0 : MvuRuntimeState Nat Nat Nat)).trace ++
          blocksJoin cLogic pairs ∧
        pairs.map Prod.snd =
          (([Effect.just 1, Effect.just 2]).map Effect.run).flatten ++
            emittedL (blocksJoin cLogic pairs) ∧
        renderedL (blocksJoin cLogic pairs) =
          pairs.map (fun q => cLogic.view (cLogic.update q.2 q.1).1)) :=
  ⟨rfl, rfl, c2_batch_order cLogic [Effect.just 1, Effect.just 2] 3
    (MvuRuntime.new 0)
    ⟨3, [], [Act.emitAct 1, Act.emitAct 2, Act.updateAct 1 0, Act.renderAct 1,
      Act.setModelAct 1, Act.updateAct 2 1, Act.renderAct 3,
      Act.setModelAct 3]⟩ rfl rfl⟩

/-- Claim C8.  Draining in test mode is idempotent once the queue is
empty: for every state with an empty pending queue, process_events returns
the state itself (performing zero steps, so zero additional renders and an
unchanged canonical model), and in particular after any completed drain a
second drain returns the drained state unchanged. -/
theorem c8_drain_idempotent {E M P : Type} (l : MvuLogic E M P)
    (fuel g : Nat) (s s' t : MvuRuntimeState E M P)
    (h : MvuRuntime.process_queued_events l fuel s = Option.some s')
    (ht : t.queue = []) :
    TestMvuDriver.process_events l (g + 1) t = Option.some t ∧
    TestMvuDriver.process_events l (g + 1) s' = Option.some s' := by
  have base : ∀ u : MvuRuntimeState E M P, u.queue = [] →
      TestMvuDriver.process_events l (g + 1) u = Option.some u := by
    intro u hu
    rw [TestMvuDriver.process_events, MvuRuntime.process_queued_events]
    simp [hu]
  exact ⟨base t ht, base s' (pqe_sound l fuel s s' h).1⟩

theorem c8_drain_idempotent_witness :
    MvuRuntime.process_queued_events cLogic 2 ((MvuRuntime.new 0 : MvuRuntimeState Nat Nat Nat).enqueue 3) =
      Option.some (⟨3, [], [Act.emitAct 3, Act.updateAct 3 0, Act.renderAct 3,
        Act.setModelAct 3]⟩ : MvuRuntimeState Nat Nat Nat) ∧
    (MvuRuntime.new 5 : MvuRuntimeState Nat Nat Nat).queue = [] ∧
    (TestMvuDriver.process_events cLogic (0 + 1)
        (MvuRuntime.new 5 : MvuRuntimeState Nat Nat Nat) =
      Option.some (MvuRuntime.new 5) ∧
    TestMvuDriver.process_events cLogic (0 + 1)
        (⟨3, [], [Act.emitAct 3, Act.updateAct 3 0, Act.renderAct 3,
          Act.setModelAct 3]⟩ : MvuRuntimeState Nat Nat Nat) =
      Option.some ⟨3, [], [Act.emitAct 3, Act.updateAct 3 0, Act.renderAct 3,
        Act.setModelAct 3]⟩) :=
  ⟨rfl, rfl, c8_drain_idempotent cLogic 2 0 ((MvuRuntime.new 0 : MvuRuntimeState Nat Nat Nat).enqueue 3)
    ⟨3, [], [Act.emitAct 3, Act.updateAct 3 0, Act.renderAct 3,
      Act.setModelAct 3]⟩ (MvuRuntime.new 5) rfl rfl⟩

/-- The manually driven test scenario: construct the test runtime with an
initial model, run it, let external callers emit a sequence of events in
order, then drain with the synchronous test spawner. -/
def testScenario {E M P : Type} (l : MvuLogic E M P) (m0 : M) (ext : List E)
    (fuel : Nat) : Option (MvuRuntimeState E M P) :=
  TestMvuDriver.process_events l fuel
    (ext.foldl (fun acc e => acc.enqueue e)
      (TestMvuRuntime.run l (TestMvuRuntime.new m0)))

/-- Claim C9.  With the synchronous test spawner the test runtime is
deterministic: any two completed executions of the same scenario (same
logic, same initial model, same externally emitted event sequence) yield
the same rendered-props sequence and the same final canonical model — the
embedding of the synchronously spawned runtime is a function of its
inputs, so no scheduling choice can diversify observable behaviour. -/
theorem c9_sync_drain_deterministic {E M P : Type} (l : MvuLogic E M P)
    (m0 : M) (ext : List E) (fuel : Nat)
    (s1 s2 : MvuRuntimeState E M P)
    (h1 : testScenario l m0 ext fuel = Option.some s1)
    (h2 : testScenario l m0 ext fuel = Option.some s2) :
    renderedL s1.trace = renderedL s2.trace ∧ s1.model = s2.model := by
  rw [h1] at h2
  cases h2
  exact ⟨rfl, rfl⟩

theorem c9_sync_drain_deterministic_witness :
    testScenario cLogic 0 [4] 2 =
      Option.some (⟨4, [], [Act.renderAct 1, Act.emitAct 4, Act.updateAct 4 0,
        Act.renderAct 4, Act.setModelAct 4]⟩ : MvuRuntimeState Nat Nat Nat) ∧
    (renderedL (⟨4, [], [Act.renderAct 1, Act.emitAct 4, Act.updateAct 4 0,
        Act.renderAct 4, Act.setModelAct 4]⟩ :
          MvuRuntimeState Nat Nat Nat).trace =
      renderedL (⟨4, [], [Act.renderAct 1, Act.emitAct 4, Act.updateAct 4 0,
        Act.renderAct 4, Act.setModelAct 4]⟩ :
          MvuRuntimeState Nat Nat Nat).trace ∧
      (⟨4, [], [Act.renderAct 1, Act.emitAct 4, Act.updateAct 4 0,
        Act.renderAct 4, Act.setModelAct 4]⟩ :
          MvuRuntimeState Nat Nat Nat).model =
        (⟨4, [], [Act.renderAct 1, Act.emitAct 4, Act.updateAct 4 0,
          Act.renderAct 4, Act.setModelAct 4]⟩ :
            MvuRuntimeState Nat Nat Nat).model) :=
  ⟨rfl, c9_sync_drain_deterministic cLogic 0 [4] 2
    ⟨4, [], [Act.renderAct 1, Act.emitAct 4, Act.updateAct 4 0,
      Act.renderAct 4, Act.setModelAct 4]⟩
    ⟨4, [], [Act.renderAct 1, Act.emitAct 4, Act.updateAct 4 0,
      Act.renderAct 4, Act.setModelAct 4]⟩ rfl rfl⟩

end OxideMvu
